import Mathlib

/-!
Shallow embedding of the message-composition engine of `src/main.rs`
(RobinBoers/sendmail) and proofs about it.

The Rust program composes a multipart email (markdown body rendered to
HTML, optional attachments) and hands it to an SMTP relay.  The source
aborts on every failure; each abort site is mapped to the typed error of
the spec's taxonomy (spec section 7).  External collaborators whose code
is not part of this repository (the markdown renderer, the mime-type
guesser and the file system) are passed in as parameters, exactly as the
spec treats them.  Behaviour that lives inside the mail library (whose
sources are likewise not in the repository) is modelled from the spec and
marked as such in the corresponding doc comment.
-/

namespace Sendmail

/-- Error taxonomy of the composition engine (spec section 7).  The Rust
source aborts with a message at each failure site; each site is mapped to
the corresponding typed error. -/
inductive MError where
  | malformedAddress (raw : String)
  | fileNotFound (path : String)
  | notAFile (path : String)
  | readFailure (path : String)
  | emptyRecipients
  | buildFailure (cause : String)
deriving Repr, DecidableEq

/-- Model of `lettre::message::Mailbox`: an optional display name plus an
email address. -/
structure Mailbox where
  name : Option String
  email : String
deriving Repr, DecidableEq

/-- The fields of `Config` (src/main.rs lines 18-26) that `create_mail`
uses: display name and email address of the sender.  The SMTP/IMAP server
fields belong to the out-of-scope delivery gateway. -/
structure Config where
  name : String
  email : String
deriving Repr, DecidableEq

/-- A file-system entry: a regular file with its contents, or a
directory (standing for any non-regular entry). -/
inductive FsEntry where
  | regular (content : String)
  | directory
deriving Repr, DecidableEq

/-- The file system, an external collaborator: a partial map from paths
to entries. -/
abbrev Fs := String → Option FsEntry

/-- A file-system access event: a metadata check (`Path::exists` /
`Path::is_file`) or an actual read (`fs::read` / `fs::read_to_string`). -/
inductive FileEvent where
  | stat (path : String)
  | read (path : String)
deriving Repr, DecidableEq

/-- The ordered trace of file-system accesses performed by a run. -/
abbrev Trace := List FileEvent

/-- Split a character list at every occurrence of `c` (the separator is
dropped; `n` separators yield `n+1` pieces). -/
def splitOnChar (c : Char) : List Char → List (List Char)
  | [] => [[]]
  | x :: xs =>
    if x = c then [] :: splitOnChar c xs
    else
      match splitOnChar c xs with
      | [] => [[x]]
      | y :: ys => (x :: y) :: ys

/-- Join pieces back together with a separating character. -/
def joinWith (c : Char) : List (List Char) → List Char
  | [] => []
  | [x] => x
  | x :: y :: ys => x ++ c :: joinWith c (y :: ys)

/-- Strip leading and trailing spaces from a character list. -/
def trimChars (s : List Char) : List Char :=
  ((s.dropWhile (· = ' ')).reverse.dropWhile (· = ' ')).reverse

/-- Modelled from the spec: a character admissible in the local part of
an address (alphanumerics and common specials; in particular neither
space nor an angle bracket nor a second `@`). -/
def isAddrChar (c : Char) : Bool :=
  c.isAlphanum || c = '.' || c = '-' || c = '_' || c = '+'

/-- Modelled from the spec: a character admissible in a domain label. -/
def isLabelChar (c : Char) : Bool :=
  c.isAlphanum || c = '-'

/-- Modelled from the spec: syntactic validity of a bare address —
non-empty local part, a single `@`, and a non-empty domain made of
non-empty dot-separated labels (spec section 4.1).  The address grammar
itself lives in the mail library, whose source is not part of this
repository. -/
def validAddress (s : List Char) : Bool :=
  match splitOnChar '@' s with
  | [l, d] =>
    !l.isEmpty && l.all isAddrChar &&
      (!d.isEmpty && (splitOnChar '.' d).all fun lab => !lab.isEmpty && lab.all isLabelChar)
  | _ => false

/-- Embedding of `parse_address` (src/main.rs lines 149-151).  The call
`address.parse()` delegates to the mail library's mailbox parser, whose
source is not part of this repository; the parser is therefore modelled
from the spec (section 4.1): it accepts a bare `user@host` or a
display-name form `Name <user@host>`, and fails with `MalformedAddress`
carrying the offending raw string otherwise. -/
def parse_address (address : String) : Except MError Mailbox :=
  match splitOnChar '<' address.data with
  | [bare] =>
    if validAddress bare then .ok ⟨none, ⟨bare⟩⟩
    else .error (.malformedAddress address)
  | name :: r :: rs =>
    match (joinWith '<' (r :: rs)).getLast? with
    | some c =>
      if c = '>' then
        if validAddress (joinWith '<' (r :: rs)).dropLast then
          .ok ⟨some ⟨trimChars name⟩, ⟨(joinWith '<' (r :: rs)).dropLast⟩⟩
        else .error (.malformedAddress address)
      else .error (.malformedAddress address)
    | none => .error (.malformedAddress address)
  | [] => .error (.malformedAddress address)

/-- Embedding of `addresses` (src/main.rs lines 126-134): parse each raw
string in order, aborting at the first failure. -/
def addresses : List String → Except MError (List Mailbox)
  | [] => .ok []
  | a :: rest =>
    match parse_address a with
    | .error e => .error e
    | .ok mb =>
      match addresses rest with
      | .error e => .error e
      | .ok mbs => .ok (mb :: mbs)

/-- Embedding of `validate_file` (src/main.rs lines 162-166): a missing
path aborts with "No such file or directory" (`FileNotFound`), an
existing non-regular path aborts with "Not a file" (`NotAFile`). -/
def validate_file (fs : Fs) (path : String) : Except MError Unit :=
  match fs path with
  | none => .error (.fileNotFound path)
  | some .directory => .error (.notAFile path)
  | some (.regular _) => .ok ()

/-- A raw file read (`fs::read` / `fs::read_to_string`); failure maps to
`ReadFailure`. -/
def read_file (fs : Fs) (path : String) : Except MError String :=
  match fs path with
  | some (.regular c) => .ok c
  | _ => .error (.readFailure path)

/-- Model of `Path::file_name` (std): the final normal component of the
path, ignoring redundant separators and `.` components; `none` when the
path is empty, is a root, or ends in `..`. -/
def basename (path : String) : Option String :=
  match ((splitOnChar '/' path.data).filter
      fun cmp => !cmp.isEmpty && cmp ≠ ['.']).getLast? with
  | none => none
  | some c => if c = ['.', '.'] then none else some ⟨c⟩

/-- The kind of a multipart container. -/
inductive MultiPartKind where
  | mixed
  | alternative
deriving Repr, DecidableEq

/-- Model of the mail library's MIME parts: the plain-text and HTML
single parts produced for the body, attachment single parts, and
multipart containers. -/
inductive MimePart where
  | plainText (content : String)
  | htmlText (content : String)
  | attachment (filename : String) (contentType : String) (body : String)
  | multi (kind : MultiPartKind) (parts : List MimePart)

/-- Model of `MultiPart::alternative_plain_html` (mail library, as
documented): a multipart/alternative container holding the plain-text
part first and the HTML part second. -/
def alternative_plain_html (plain html : String) : MimePart :=
  .multi .alternative [.plainText plain, .htmlText html]

/-- Model of `MultiPart::multipart` / `MultiPart::singlepart` (mail
library, as documented): append a child part to a multipart container. -/
def addPart : MimePart → MimePart → MimePart
  | .multi k ps, p => .multi k (ps ++ [p])
  | other, _ => other

/-- Embedding of `parse_markdown` (src/main.rs lines 153-160): validate
the path, read it as text, and render it to HTML through the external
markdown collaborator `md2html`.  Returns the result together with the
trace of file accesses performed. -/
def parse_markdown (md2html : String → String) (fs : Fs) (path : String) :
    Except MError (String × String) × Trace :=
  match validate_file fs path with
  | .error e => (.error e, [.stat path])
  | .ok _ =>
    match read_file fs path with
    | .error e => (.error e, [.stat path, .read path])
    | .ok plain => (.ok (plain, md2html plain), [.stat path, .read path])

/-- Embedding of `create_attachment` (src/main.rs lines 136-147):
validate the path, take the basename as display name (a path with no
basename is a contract violation, mapped to `BuildFailure`), read the
bytes, and infer the content type through the external `mimeGuess`
collaborator, falling back to application/octet-stream. -/
def create_attachment (mimeGuess : String → Option String) (fs : Fs) (path : String) :
    Except MError MimePart × Trace :=
  match validate_file fs path with
  | .error e => (.error e, [.stat path])
  | .ok _ =>
    match basename path with
    | none => (.error (.buildFailure path), [.stat path])
    | some nm =>
      match read_file fs path with
      | .error e => (.error e, [.stat path, .read path])
      | .ok body =>
        (.ok (.attachment nm ((mimeGuess path).getD "application/octet-stream") body),
          [.stat path, .read path])

/-- Embedding of the attachment loop of `create_mail` (src/main.rs lines
111-114): build each attachment in input order and append it to the
container, aborting at the first failure. -/
def attach_all (mimeGuess : String → Option String) (fs : Fs) :
    List String → MimePart → Except MError MimePart × Trace
  | [], content => (.ok content, [])
  | f :: rest, content =>
    match create_attachment mimeGuess fs f with
    | (.error e, t) => (.error e, t)
    | (.ok att, t) =>
      match attach_all mimeGuess fs rest (addPart content att) with
      | (r, t2) => (r, t ++ t2)

/-- Modelled from the spec: the mail library's `MessageBuilder::mailbox`,
whose source is not part of this repository.  Per the spec (section 4.4),
an empty mailbox list leads to the corresponding header being omitted
from the built message rather than emitted empty. -/
def setMailboxHeader (mbs : List Mailbox) : Option (List Mailbox) :=
  if mbs.isEmpty then none else some mbs

/-- The assembled message: sender, subject, the optional recipient
headers, and the body part tree. -/
structure Message where
  sender : Mailbox
  subject : String
  toHeader : Option (List Mailbox)
  ccHeader : Option (List Mailbox)
  bccHeader : Option (List Mailbox)
  body : MimePart

/-- Model of the `Message::builder()` chain of src/main.rs lines 116-123:
set From and Subject, set the three mailbox headers, and install the body. -/
def build_message (sender : Mailbox) (subject : String)
    (toM ccM bccM : List Mailbox) (content : MimePart) : Message :=
  { sender, subject,
    toHeader := setMailboxHeader toM,
    ccHeader := setMailboxHeader ccM,
    bccHeader := setMailboxHeader bccM,
    body := content }

/-- Embedding of `create_mail` (src/main.rs lines 99-124), with the
external collaborators (markdown renderer, mime guesser, file system)
passed in.  The leading emptiness check on `to` is modelled from the
spec: the `--to` argument is declared required in `Args` (src/main.rs
lines 56-58), so the CLI layer rejects an empty `to` list before any
composition work; per the spec this failure is `EmptyRecipients`.  The
remaining steps follow the source order exactly: parse the sender (built
as "name <email>" from the configuration), parse to, cc and bcc, read
and render the body, build the attachments in input order inside a mixed
container, then build the message. -/
def create_mail (md2html : String → String) (mimeGuess : String → Option String)
    (fs : Fs) (path subject : String) (to_ cc bcc files : List String)
    (config : Config) : Except MError Message × Trace :=
  if to_.isEmpty then (.error .emptyRecipients, [])
  else
    match parse_address (config.name ++ " <" ++ config.email ++ ">") with
    | .error e => (.error e, [])
    | .ok sender =>
      match addresses to_ with
      | .error e => (.error e, [])
      | .ok toM =>
        match addresses cc with
        | .error e => (.error e, [])
        | .ok ccM =>
          match addresses bcc with
          | .error e => (.error e, [])
          | .ok bccM =>
            match parse_markdown md2html fs path with
            | (.error e, t) => (.error e, t)
            | (.ok (plain, html), t1) =>
              match attach_all mimeGuess fs files
                  (addPart (.multi .mixed []) (alternative_plain_html plain html)) with
              | (.error e, t2) => (.error e, t1 ++ t2)
              | (.ok content2, t2) =>
                (.ok (build_message sender subject toM ccM bccM content2), t1 ++ t2)

/-! ## Concrete fixtures for witness runs -/

/-- Identity markdown renderer used in concrete runs. -/
def mdId : String → String := fun s => s

/-- Mime guesser that never recognises an extension. -/
def mgNone : String → Option String := fun _ => none

/-- Mime guesser that recognises everything as PDF. -/
def mgPdf : String → Option String := fun _ => some "application/pdf"

/-- A sender configuration with a well-formed name and address. -/
def cfgMe : Config := ⟨"Me", "me@ex.com"⟩

/-- A file system holding just a markdown body file. -/
def fsBody : Fs := fun p => if p = "body.md" then some (.regular "hello") else none

/-- A file system holding just a directory. -/
def fsDir : Fs := fun p => if p = "somedir" then some .directory else none

/-- A file system holding a body file and an attachment. -/
def fsAtt : Fs := fun p =>
  if p = "body.md" then some (.regular "hi")
  else if p = "a/report.pdf" then some (.regular "PDF") else none

/-- The message assembled from `fsBody` with one recipient and no
attachments. -/
def msgNoAtt : Message :=
  build_message ⟨some "Me", "me@ex.com"⟩ "S" [⟨none, "a@x.co"⟩] [] []
    (.multi .mixed [.multi .alternative [.plainText "hello", .htmlText "hello"]])

/-- The message assembled from `fsAtt` with one recipient and the same
attachment given twice. -/
def msgAtt : Message :=
  build_message ⟨some "Me", "me@ex.com"⟩ "S" [⟨none, "a@x.co"⟩] [] []
    (.multi .mixed [.multi .alternative [.plainText "hi", .htmlText "hi"],
      .attachment "report.pdf" "application/pdf" "PDF",
      .attachment "report.pdf" "application/pdf" "PDF"])

/-! ## Helper lemmas on the splitting functions -/

theorem splitOnChar_ne_nil (c : Char) (s : List Char) : splitOnChar c s ≠ [] := by
  cases s with
  | nil => simp [splitOnChar]
  | cons x xs =>
    simp only [splitOnChar]
    split
    · simp
    · split <;> simp

theorem splitOnChar_of_not_mem {c : Char} :
    ∀ {s : List Char}, c ∉ s → splitOnChar c s = [s]
  | [], _ => rfl
  | x :: xs, h => by
    have hx : ¬ x = c := fun hx => h (hx ▸ List.mem_cons_self x xs)
    have hxs : c ∉ xs := fun hm => h (List.mem_cons_of_mem _ hm)
    simp only [splitOnChar, if_neg hx, splitOnChar_of_not_mem hxs]

theorem splitOnChar_append (c : Char) :
    ∀ (xs ys : List Char), c ∉ xs →
      splitOnChar c (xs ++ c :: ys) = xs :: splitOnChar c ys
  | [], ys, _ => by simp [splitOnChar]
  | x :: xs, ys, h => by
    have hx : ¬ x = c := fun hx => h (hx ▸ List.mem_cons_self x xs)
    have hxs : c ∉ xs := fun hm => h (List.mem_cons_of_mem _ hm)
    have ih := splitOnChar_append c xs ys hxs
    simp only [List.cons_append, splitOnChar, if_neg hx, List.append_eq, ih]

theorem mem_of_mem_splitOnChar {c x : Char} :
    ∀ {s t : List Char}, t ∈ splitOnChar c s → x ∈ t → x ∈ s := by
  intro s
  induction s with
  | nil =>
    intro t ht hx
    simp [splitOnChar] at ht
    subst ht
    simp at hx
  | cons a as ih =>
    intro t ht hx
    simp only [splitOnChar] at ht
    split at ht
    · rcases List.mem_cons.mp ht with rfl | ht
      · simp at hx
      · exact List.mem_cons_of_mem _ (ih ht hx)
    · split at ht
      · rename_i hnil
        exact absurd hnil (splitOnChar_ne_nil c as)
      · rename_i y ys hy
        rcases List.mem_cons.mp ht with rfl | ht
        · rcases List.mem_cons.mp hx with rfl | hx
          · exact List.mem_cons_self _ _
          · have hym : y ∈ splitOnChar c as := by rw [hy]; exact List.mem_cons_self _ _
            exact List.mem_cons_of_mem _ (ih hym hx)
        · have htm : t ∈ splitOnChar c as := by rw [hy]; exact List.mem_cons_of_mem _ ht
          exact List.mem_cons_of_mem _ (ih htm hx)

theorem mem_joinWith {c x : Char} :
    ∀ {ts : List (List Char)}, x ∈ joinWith c ts → x = c ∨ ∃ t ∈ ts, x ∈ t := by
  intro ts
  induction ts with
  | nil => intro h; simp [joinWith] at h
  | cons t ts ih =>
    intro h
    cases ts with
    | nil =>
      right
      exact ⟨t, List.mem_cons_self _ _, by simpa [joinWith] using h⟩
    | cons u us =>
      simp only [joinWith] at h
      rcases List.mem_append.mp h with h | h
      · right; exact ⟨t, List.mem_cons_self _ _, h⟩
      · rcases List.mem_cons.mp h with rfl | h
        · left; rfl
        · rcases ih h with h | ⟨v, hv, hxv⟩
          · left; exact h
          · right; exact ⟨v, List.mem_cons_of_mem _ hv, hxv⟩

theorem mem_of_mem_dropLast {α : Type} {x : α} :
    ∀ {l : List α}, x ∈ l.dropLast → x ∈ l := by
  intro l
  induction l with
  | nil => intro h; simp at h
  | cons a as ih =>
    intro h
    cases as with
    | nil => simp at h
    | cons b bs =>
      rcases List.mem_cons.mp h with rfl | h
      · exact List.mem_cons_self _ _
      · exact List.mem_cons_of_mem _ (ih h)

/-! ## Helper lemmas on the address parser -/

theorem validAddress_of_not_at {s : List Char} (h : '@' ∉ s) :
    validAddress s = false := by
  simp only [validAddress, splitOnChar_of_not_mem h]

/-- Every failure of the parser carries the offending raw string. -/
theorem parse_address_error {s : String} {e : MError}
    (h : parse_address s = .error e) : e = .malformedAddress s := by
  unfold parse_address at h
  split at h
  · split at h
    · cases h
    · cases h; rfl
  · split at h
    · split at h
      · split at h
        · cases h
        · cases h; rfl
      · cases h; rfl
    · cases h; rfl
  · cases h; rfl

/-- Parsing a well-formed display-name form returns the enclosed address
verbatim. -/
theorem parse_address_named {n a : List Char}
    (hn : '<' ∉ n) (ha1 : '<' ∉ a) (hv : validAddress a = true) :
    parse_address ⟨n ++ '<' :: (a ++ ['>'])⟩ = .ok ⟨some ⟨trimChars n⟩, ⟨a⟩⟩ := by
  have hsplit : splitOnChar '<' (n ++ '<' :: (a ++ ['>'])) = n :: [a ++ ['>']] := by
    rw [splitOnChar_append _ _ _ hn,
      splitOnChar_of_not_mem (by
        intro hm
        rcases List.mem_append.mp hm with hm | hm
        · exact ha1 hm
        · simp at hm)]
  unfold parse_address
  rw [show (String.mk (n ++ '<' :: (a ++ ['>']))).data = n ++ '<' :: (a ++ ['>']) from rfl,
    hsplit]
  simp only [joinWith, List.getLast?_concat, List.dropLast_concat, hv, if_pos rfl, if_true]

/-- Parsing a well-formed bare address returns it verbatim. -/
theorem parse_address_bare {a : List Char} (h : '<' ∉ a) (hv : validAddress a = true) :
    parse_address ⟨a⟩ = .ok ⟨none, ⟨a⟩⟩ := by
  unfold parse_address
  rw [show (String.mk a).data = a from rfl, splitOnChar_of_not_mem h]
  simp [hv]

/-- A string containing no `@` at all is always rejected. -/
theorem parse_address_no_at {raw : String} (h : '@' ∉ raw.data) :
    parse_address raw = .error (.malformedAddress raw) := by
  unfold parse_address
  rcases hs : splitOnChar '<' raw.data with _ | ⟨p, rest⟩
  · exact absurd hs (splitOnChar_ne_nil _ _)
  · cases rest with
    | nil =>
      have hp : '@' ∉ p := fun hm =>
        h (mem_of_mem_splitOnChar (by rw [hs]; exact List.mem_cons_self p []) hm)
      simp [validAddress_of_not_at hp]
    | cons r rs =>
      dsimp only
      have hinner : '@' ∉ joinWith '<' (r :: rs) := by
        intro hm
        rcases mem_joinWith hm with hm | ⟨t, ht, hxt⟩
        · cases hm
        · exact h (mem_of_mem_splitOnChar
            (by rw [hs]; exact List.mem_cons_of_mem p ht) hxt)
      rcases hg : (joinWith '<' (r :: rs)).getLast? with _ | c
      · rfl
      · have hdrop : '@' ∉ (joinWith '<' (r :: rs)).dropLast := fun hm =>
          hinner (mem_of_mem_dropLast hm)
        by_cases hc : c = '>'
        · subst hc
          simp [validAddress_of_not_at hdrop]
        · simp [hc]

/-! ## Helper lemmas on the mailbox-list parser -/

/-- `addresses` succeeds exactly when every element parses, and then it
returns the parsed mailboxes in input order. -/
theorem addresses_ok_iff {l : List String} {mbs : List Mailbox} :
    addresses l = .ok mbs ↔
      List.Forall₂ (fun a mb => parse_address a = .ok mb) l mbs := by
  induction l generalizing mbs with
  | nil =>
    constructor
    · intro h; cases h; exact List.Forall₂.nil
    · intro h; cases h; rfl
  | cons a rest ih =>
    constructor
    · intro h
      unfold addresses at h
      rcases hp : parse_address a with e | mb
      · rw [hp] at h; cases h
      · rw [hp] at h
        rcases hr : addresses rest with e | mbs'
        · rw [hr] at h; cases h
        · rw [hr] at h; cases h
          exact List.Forall₂.cons hp (ih.mp hr)
    · intro h
      cases h with
      | cons hpa htail =>
        unfold addresses
        rw [hpa, ih.mpr htail]

theorem addresses_length {l : List String} {mbs : List Mailbox}
    (h : addresses l = .ok mbs) : mbs.length = l.length :=
  (List.Forall₂.length_eq (addresses_ok_iff.mp h)).symm

/-- Any failure of `addresses` is a malformed-address failure. -/
theorem addresses_error {l : List String} {e : MError}
    (h : addresses l = .error e) : ∃ raw, e = .malformedAddress raw := by
  induction l with
  | nil => cases h
  | cons a rest ih =>
    unfold addresses at h
    rcases hp : parse_address a with e' | mb
    · rw [hp] at h; cases h; exact ⟨a, parse_address_error hp⟩
    · rw [hp] at h
      rcases hr : addresses rest with e' | mbs
      · rw [hr] at h; cases h; exact ih hr
      · rw [hr] at h; cases h

/-- Fail-fast behaviour of `addresses`: the error of the first failing
element is returned, whatever comes after it. -/
theorem addresses_fail_fast :
    ∀ (pre : List String) (bad : String) (post : List String) (e : MError),
      (∀ a ∈ pre, ∃ mb, parse_address a = .ok mb) →
      parse_address bad = .error e →
      addresses (pre ++ bad :: post) = .error e
  | [], bad, post, e, _, hbad => by simp [addresses, hbad]
  | p :: pre, bad, post, e, hpre, hbad => by
    obtain ⟨mb, hmb⟩ := hpre p (List.mem_cons_self _ _)
    have ih := addresses_fail_fast pre bad post e
      (fun a ha => hpre a (List.mem_cons_of_mem _ ha)) hbad
    simp [addresses, hmb, ih]

/-! ## Helper lemmas on the file-reading operations -/

theorem parse_markdown_ok {md : String → String} {fs : Fs}
    {path plain html : String} {tr : Trace}
    (h : parse_markdown md fs path = (.ok (plain, html), tr)) :
    fs path = some (.regular plain) ∧ html = md plain ∧
      tr = [.stat path, .read path] := by
  unfold parse_markdown validate_file read_file at h
  rcases hfs : fs path with _ | entry
  · rw [hfs] at h; simp at h
  · cases entry with
    | directory => rw [hfs] at h; simp at h
    | regular c =>
      rw [hfs] at h
      simp only [Prod.mk.injEq, Except.ok.injEq] at h
      obtain ⟨⟨h1, h2⟩, h3⟩ := h
      subst h1
      exact ⟨rfl, h2.symm, h3.symm⟩

theorem create_attachment_ok {mg : String → Option String} {fs : Fs}
    {f : String} {att : MimePart}
    (h : (create_attachment mg fs f).fst = .ok att) :
    ∃ nm bd, att = .attachment nm ((mg f).getD "application/octet-stream") bd ∧
      basename f = some nm ∧ fs f = some (.regular bd) := by
  unfold create_attachment validate_file read_file at h
  rcases hfs : fs f with _ | entry
  · rw [hfs] at h; simp at h
  · cases entry with
    | directory => rw [hfs] at h; simp at h
    | regular c =>
      rw [hfs] at h
      rcases hb : basename f with _ | nm
      · rw [hb] at h; simp at h
      · rw [hb] at h
        simp only [Except.ok.injEq] at h
        exact ⟨nm, c, h.symm, rfl, rfl⟩

/-- Success shape of the attachment loop: it appends one attachment part
per input path, in input order. -/
theorem attach_all_ok {mg : String → Option String} {fs : Fs} :
    ∀ {files : List String} {k : MultiPartKind} {acc : List MimePart}
      {content : MimePart} {tr : Trace},
      attach_all mg fs files (.multi k acc) = (.ok content, tr) →
      ∃ atts, content = .multi k (acc ++ atts) ∧
        List.Forall₂ (fun f att => (create_attachment mg fs f).fst = .ok att)
          files atts := by
  intro files
  induction files with
  | nil =>
    intro k acc content tr h
    unfold attach_all at h
    simp only [Prod.mk.injEq, Except.ok.injEq] at h
    exact ⟨[], h.1.symm ▸ by simp, List.Forall₂.nil⟩
  | cons f rest ih =>
    intro k acc content tr h
    unfold attach_all at h
    rcases hca : create_attachment mg fs f with ⟨r1, t1⟩
    rw [hca] at h
    cases r1 with
    | error e => simp at h
    | ok att =>
      dsimp only at h
      rcases hrec : attach_all mg fs rest (addPart (.multi k acc) att) with ⟨r2, t2⟩
      rw [hrec] at h
      dsimp only at h
      simp only [Prod.mk.injEq] at h
      obtain ⟨h1, h2⟩ := h
      rw [h1] at hrec
      obtain ⟨atts, hc, hfa⟩ := ih hrec
      refine ⟨att :: atts, ?_, List.Forall₂.cons (by rw [hca]) hfa⟩
      rw [hc]
      simp

/-! ## Success shape of `create_mail` -/

/-- Inversion of a successful `create_mail` run: every stage succeeded,
and the assembled message is the built one — a mixed container holding
the alternative plain/HTML group first and then one attachment part per
input path, in order, under the headers produced by `build_message`. -/
theorem create_mail_ok {md : String → String} {mg : String → Option String}
    {fs : Fs} {path subject : String} {to_ cc bcc files : List String}
    {config : Config} {msg : Message} {tr : Trace}
    (h : create_mail md mg fs path subject to_ cc bcc files config = (.ok msg, tr)) :
    ∃ sender toM ccM bccM plain atts,
      to_ ≠ [] ∧
      parse_address (config.name ++ " <" ++ config.email ++ ">") = .ok sender ∧
      addresses to_ = .ok toM ∧
      addresses cc = .ok ccM ∧
      addresses bcc = .ok bccM ∧
      fs path = some (.regular plain) ∧
      List.Forall₂ (fun f att => (create_attachment mg fs f).fst = .ok att)
        files atts ∧
      msg = build_message sender subject toM ccM bccM
        (.multi .mixed (alternative_plain_html plain (md plain) :: atts)) := by
  unfold create_mail at h
  split at h
  · simp at h
  · rename_i hto
    have hto' : to_ ≠ [] := by
      intro hnil
      rw [hnil] at hto
      exact hto rfl
    rcases hfrom : parse_address (config.name ++ " <" ++ config.email ++ ">")
      with e | sender
    · rw [hfrom] at h; simp at h
    · rw [hfrom] at h
      rcases h1 : addresses to_ with e | toM
      · rw [h1] at h; simp at h
      · rw [h1] at h
        rcases h2 : addresses cc with e | ccM
        · rw [h2] at h; simp at h
        · rw [h2] at h
          rcases h3 : addresses bcc with e | bccM
          · rw [h3] at h; simp at h
          · rw [h3] at h
            rcases h4 : parse_markdown md fs path with ⟨r1, t1⟩
            rw [h4] at h
            cases r1 with
            | error e => simp at h
            | ok ph =>
              rcases ph with ⟨plain, html⟩
              obtain ⟨hfs, hhtml, ht1⟩ := parse_markdown_ok h4
              dsimp only at h
              rcases h5 : attach_all mg fs files
                  (addPart (.multi .mixed []) (alternative_plain_html plain html))
                with ⟨r2, t2⟩
              rw [h5] at h
              cases r2 with
              | error e => simp at h
              | ok content2 =>
                dsimp only at h
                simp only [Prod.mk.injEq, Except.ok.injEq] at h
                obtain ⟨hmsg, -⟩ := h
                have h5' : attach_all mg fs files
                    (.multi .mixed [alternative_plain_html plain html]) =
                    (.ok content2, t2) := h5
                obtain ⟨atts, hc, hfa⟩ := attach_all_ok h5'
                refine ⟨sender, toM, ccM, bccM, plain, atts, hto', rfl, rfl, rfl, rfl,
                  hfs, hfa, ?_⟩
                rw [← hmsg, hc, hhtml]
                simp

/-! ## Claims -/

/-- C1, counterexample: a concrete assembly with an empty attachments
sequence whose top-level body is NOT the alternative group itself — the
source (src/main.rs line 109) wraps the alternative group in a mixed
container unconditionally, so a mixed wrapper encloses it even with no
attachments. -/
theorem claim_C1_counterexample :
    (create_mail mdId mgNone fsBody "body.md" "S" ["a@x.co"] [] [] [] cfgMe).fst =
      .ok msgNoAtt ∧
    msgNoAtt.body =
      .multi .mixed [.multi .alternative [.plainText "hello", .htmlText "hello"]] ∧
    ∀ parts, msgNoAtt.body ≠ .multi .alternative parts := by
  refine ⟨rfl, rfl, ?_⟩
  intro parts h
  simp [msgNoAtt, build_message] at h

/-- C1, amended: for every assembly with an empty attachments sequence,
the top-level body of the assembled message is a mixed multipart
container whose single child is the alternative (plain/HTML) group. -/
theorem claim_C1 {md : String → String} {mg : String → Option String} {fs : Fs}
    {path subject : String} {to_ cc bcc : List String} {config : Config}
    {msg : Message} {tr : Trace}
    (h : create_mail md mg fs path subject to_ cc bcc [] config = (.ok msg, tr)) :
    ∃ plain, fs path = some (.regular plain) ∧
      msg.body = .multi .mixed [alternative_plain_html plain (md plain)] := by
  obtain ⟨sender, toM, ccM, bccM, plain, atts, -, -, -, -, -, hfs, hfa, hmsg⟩ :=
    create_mail_ok h
  cases hfa
  exact ⟨plain, hfs, by rw [hmsg]; rfl⟩

theorem claim_C1_witness :
    ∃ plain, fsBody "body.md" = some (.regular plain) ∧
      msgNoAtt.body = .multi .mixed [alternative_plain_html plain (mdId plain)] :=
  claim_C1 (show create_mail mdId mgNone fsBody "body.md" "S" ["a@x.co"] [] [] [] cfgMe
    = (.ok msgNoAtt, [.stat "body.md", .read "body.md"]) from rfl)

/-- C2: for every assembly with a non-empty to list and empty cc and bcc
lists, the assembled message carries a To header (with the parsed,
non-empty mailbox list) and no Cc and no Bcc header. -/
theorem claim_C2 {md : String → String} {mg : String → Option String} {fs : Fs}
    {path subject : String} {to_ files : List String} {config : Config}
    {msg : Message} {tr : Trace}
    (hto : to_ ≠ [])
    (h : create_mail md mg fs path subject to_ [] [] files config = (.ok msg, tr)) :
    (∃ mbs, msg.toHeader = some mbs ∧ mbs ≠ []) ∧
      msg.ccHeader = none ∧ msg.bccHeader = none := by
  obtain ⟨sender, toM, ccM, bccM, plain, atts, -, -, h1, h2, h3, -, -, hmsg⟩ :=
    create_mail_ok h
  have hcc : ccM = [] := by
    have : (Except.ok [] : Except MError (List Mailbox)) = .ok ccM := h2
    cases this; rfl
  have hbcc : bccM = [] := by
    have : (Except.ok [] : Except MError (List Mailbox)) = .ok bccM := h3
    cases this; rfl
  have htoM : toM ≠ [] := by
    intro hnil
    have hl := addresses_length h1
    rw [hnil] at hl
    exact hto (List.eq_nil_of_length_eq_zero hl.symm)
  subst hcc hbcc
  rw [hmsg]
  refine ⟨⟨toM, ?_, htoM⟩, rfl, rfl⟩
  cases toM with
  | nil => exact absurd rfl htoM
  | cons m ms => rfl

theorem claim_C2_witness :
    (∃ mbs, msgNoAtt.toHeader = some mbs ∧ mbs ≠ []) ∧
      msgNoAtt.ccHeader = none ∧ msgNoAtt.bccHeader = none :=
  claim_C2 (List.cons_ne_nil _ _)
    (show create_mail mdId mgNone fsBody "body.md" "S" ["a@x.co"] [] [] [] cfgMe
      = (.ok msgNoAtt, [.stat "body.md", .read "body.md"]) from rfl)

/-- C3: for every input with an empty to list, composition fails with
EmptyRecipients, whatever the other inputs are, and no message is
produced (and no file is touched). -/
theorem claim_C3 (md : String → String) (mg : String → Option String) (fs : Fs)
    (path subject : String) (cc bcc files : List String) (config : Config) :
    create_mail md mg fs path subject [] cc bcc files config =
      (.error .emptyRecipients, []) := rfl

/-- C4: a well-formed display-name form `Name <user@host>` and a
well-formed bare `user@host` both parse to a mailbox carrying exactly
that address; a string with no `@`, or one whose domain is missing,
fails with MalformedAddress carrying the offending raw string. -/
theorem claim_C4 :
    (∀ n a : List Char, '<' ∉ n → '<' ∉ a → validAddress a = true →
        parse_address ⟨n ++ '<' :: (a ++ ['>'])⟩ = .ok ⟨some ⟨trimChars n⟩, ⟨a⟩⟩) ∧
    (∀ a : List Char, '<' ∉ a → validAddress a = true →
        parse_address ⟨a⟩ = .ok ⟨none, ⟨a⟩⟩) ∧
    (∀ raw : String, '@' ∉ raw.data →
        parse_address raw = .error (.malformedAddress raw)) ∧
    (∀ l : List Char, '<' ∉ l → '@' ∉ l →
        parse_address ⟨l ++ ['@']⟩ = .error (.malformedAddress ⟨l ++ ['@']⟩)) := by
  refine ⟨fun n a hn ha hv => parse_address_named hn ha hv,
    fun a ha hv => parse_address_bare ha hv,
    fun raw h => parse_address_no_at h,
    fun l hl ha => ?_⟩
  unfold parse_address
  rw [show (String.mk (l ++ ['@'])).data = l ++ ['@'] from rfl,
    splitOnChar_of_not_mem (by
      intro hm
      rcases List.mem_append.mp hm with hm | hm
      · exact hl hm
      · simp at hm)]
  have hv : validAddress (l ++ ['@']) = false := by
    unfold validAddress
    rw [show l ++ ['@'] = l ++ '@' :: [] from rfl, splitOnChar_append _ _ _ ha]
    simp [splitOnChar]
  simp [hv]

theorem claim_C4_witness :
    parse_address "Ann <ann@example.com>" = .ok ⟨some "Ann", "ann@example.com"⟩ ∧
    parse_address "bob@site.org" = .ok ⟨none, "bob@site.org"⟩ ∧
    parse_address "no-at-sign" = .error (.malformedAddress "no-at-sign") ∧
    parse_address "user@" = .error (.malformedAddress "user@") :=
  ⟨claim_C4.1 "Ann ".data "ann@example.com".data (by decide) (by decide) (by decide),
   claim_C4.2.1 "bob@site.org".data (by decide) (by decide),
   claim_C4.2.2.1 "no-at-sign" (by decide),
   claim_C4.2.2.2 "user".data (by decide) (by decide)⟩

/-- C5: for every non-empty attachment path list, a successful assembly
carries, after the body group, exactly one attachment part per input
path, in input order (duplicates preserved), each displaying the
basename of its source path. -/
theorem claim_C5 {md : String → String} {mg : String → Option String} {fs : Fs}
    {path subject : String} {to_ cc bcc files : List String} {config : Config}
    {msg : Message} {tr : Trace}
    (hne : files ≠ [])
    (h : create_mail md mg fs path subject to_ cc bcc files config = (.ok msg, tr)) :
    ∃ alt atts, msg.body = .multi .mixed (alt :: atts) ∧ atts ≠ [] ∧
      List.Forall₂ (fun f att => ∃ nm bd,
        att = MimePart.attachment nm ((mg f).getD "application/octet-stream") bd ∧
        basename f = some nm) files atts := by
  obtain ⟨sender, toM, ccM, bccM, plain, atts, -, -, -, -, -, -, hfa, hmsg⟩ :=
    create_mail_ok h
  refine ⟨alternative_plain_html plain (md plain), atts, by rw [hmsg]; rfl, ?_, ?_⟩
  · intro hnil
    rw [hnil] at hfa
    cases hfa
    exact hne rfl
  · refine List.Forall₂.imp (fun f att hia => ?_) hfa
    obtain ⟨nm, bd, hatt, hbn, -⟩ := create_attachment_ok hia
    exact ⟨nm, bd, hatt, hbn⟩

theorem claim_C5_witness :
    ∃ alt atts, msgAtt.body = .multi .mixed (alt :: atts) ∧ atts ≠ [] ∧
      List.Forall₂ (fun f att => ∃ nm bd,
        att = MimePart.attachment nm ((mgPdf f).getD "application/octet-stream") bd ∧
        basename f = some nm) ["a/report.pdf", "a/report.pdf"] atts :=
  claim_C5 (List.cons_ne_nil _ _)
    (show create_mail mdId mgPdf fsAtt "body.md" "S" ["a@x.co"] [] []
        ["a/report.pdf", "a/report.pdf"] cfgMe =
      (.ok msgAtt, [.stat "body.md", .read "body.md", .stat "a/report.pdf",
        .read "a/report.pdf", .stat "a/report.pdf", .read "a/report.pdf"]) from rfl)

/-- C6: in every successfully assembled message, the alternative group
of the body contains exactly two parts in this fixed order: the
plain-text representation first, then the HTML rendering of it. -/
theorem claim_C6 {md : String → String} {mg : String → Option String} {fs : Fs}
    {path subject : String} {to_ cc bcc files : List String} {config : Config}
    {msg : Message} {tr : Trace}
    (h : create_mail md mg fs path subject to_ cc bcc files config = (.ok msg, tr)) :
    ∃ plain rest, fs path = some (.regular plain) ∧
      msg.body = .multi .mixed
        (.multi .alternative [.plainText plain, .htmlText (md plain)] :: rest) := by
  obtain ⟨sender, toM, ccM, bccM, plain, atts, -, -, -, -, -, hfs, -, hmsg⟩ :=
    create_mail_ok h
  exact ⟨plain, atts, hfs, by rw [hmsg]; rfl⟩

theorem claim_C6_witness :
    ∃ plain rest, fsAtt "body.md" = some (.regular plain) ∧
      msgAtt.body = .multi .mixed
        (.multi .alternative [.plainText plain, .htmlText (mdId plain)] :: rest) :=
  claim_C6 (show create_mail mdId mgPdf fsAtt "body.md" "S" ["a@x.co"] [] []
      ["a/report.pdf", "a/report.pdf"] cfgMe =
    (.ok msgAtt, [.stat "body.md", .read "body.md", .stat "a/report.pdf",
      .read "a/report.pdf", .stat "a/report.pdf", .read "a/report.pdf"]) from rfl)

/-- C7: both file-reading operations validate the path before reading: a
missing path fails with FileNotFound, an existing non-regular path fails
with NotAFile, and in either case only a metadata check (no read) has
occurred and no partial result is returned. -/
theorem claim_C7 (md : String → String) (mg : String → Option String)
    (fs : Fs) (path : String) :
    (fs path = none →
      parse_markdown md fs path = (.error (.fileNotFound path), [.stat path]) ∧
      create_attachment mg fs path = (.error (.fileNotFound path), [.stat path])) ∧
    (fs path = some .directory →
      parse_markdown md fs path = (.error (.notAFile path), [.stat path]) ∧
      create_attachment mg fs path = (.error (.notAFile path), [.stat path])) := by
  constructor <;> intro h <;>
    simp [parse_markdown, create_attachment, validate_file, h]

theorem claim_C7_witness :
    (parse_markdown mdId fsDir "missing.md" =
        (.error (.fileNotFound "missing.md"), [.stat "missing.md"]) ∧
      create_attachment mgNone fsDir "missing.md" =
        (.error (.fileNotFound "missing.md"), [.stat "missing.md"])) ∧
    (parse_markdown mdId fsDir "somedir" =
        (.error (.notAFile "somedir"), [.stat "somedir"]) ∧
      create_attachment mgNone fsDir "somedir" =
        (.error (.notAFile "somedir"), [.stat "somedir"])) :=
  ⟨(claim_C7 mdId mgNone fsDir "missing.md").1 rfl,
   (claim_C7 mdId mgNone fsDir "somedir").2 rfl⟩

/-- C8: the mailbox-list parser parses its elements independently in
input order — success is exactly element-wise success, in order — and on
the first failing element it returns that element's error, regardless of
everything after it (no partial list, no aggregation). -/
theorem claim_C8 (pre post : List String) (bad : String) (e : MError)
    (hpre : ∀ a ∈ pre, ∃ mb, parse_address a = .ok mb)
    (hbad : parse_address bad = .error e) :
    addresses (pre ++ bad :: post) = .error e ∧
      ∀ (l : List String) (mbs : List Mailbox),
        addresses l = .ok mbs ↔
          List.Forall₂ (fun a mb => parse_address a = .ok mb) l mbs :=
  ⟨addresses_fail_fast pre bad post e hpre hbad,
   fun _ _ => addresses_ok_iff⟩

theorem claim_C8_witness :
    addresses ["ok@x.co", "bad", "worse@@"] = .error (.malformedAddress "bad") ∧
      ∀ (l : List String) (mbs : List Mailbox),
        addresses l = .ok mbs ↔
          List.Forall₂ (fun a mb => parse_address a = .ok mb) l mbs :=
  claim_C8 ["ok@x.co"] ["worse@@"] "bad" (.malformedAddress "bad")
    (by
      intro a ha
      simp only [List.mem_singleton] at ha
      subst ha
      exact ⟨⟨none, "ok@x.co"⟩, rfl⟩)
    rfl

/-- C9: all address strings (sender, to, cc, bcc) are parsed before the
body file or any attachment file is touched; hence if any of them is
malformed, composition fails with a malformed-address error and the
file-access trace is empty — no file I/O has been performed. -/
theorem claim_C9 {md : String → String} {mg : String → Option String} {fs : Fs}
    {path subject : String} {to_ cc bcc files : List String} {config : Config}
    (hto : to_ ≠ [])
    (hbad : (∃ e, parse_address (config.name ++ " <" ++ config.email ++ ">") = .error e) ∨
      (∃ e, addresses to_ = .error e) ∨
      (∃ e, addresses cc = .error e) ∨
      (∃ e, addresses bcc = .error e)) :
    ∃ raw, create_mail md mg fs path subject to_ cc bcc files config =
      (.error (.malformedAddress raw), []) := by
  obtain ⟨t, ts, rfl⟩ : ∃ t ts, to_ = t :: ts := by
    cases to_ with
    | nil => exact absurd rfl hto
    | cons t ts => exact ⟨t, ts, rfl⟩
  unfold create_mail
  rw [if_neg (by simp)]
  rcases hfrom : parse_address (config.name ++ " <" ++ config.email ++ ">")
    with e | sender
  · exact ⟨_, by rw [parse_address_error hfrom]⟩
  · rcases h1 : addresses (t :: ts) with e | toM
    · obtain ⟨raw, hraw⟩ := addresses_error h1
      exact ⟨raw, by rw [hraw]⟩
    · rcases h2 : addresses cc with e | ccM
      · obtain ⟨raw, hraw⟩ := addresses_error h2
        exact ⟨raw, by rw [hraw]⟩
      · rcases h3 : addresses bcc with e | bccM
        · obtain ⟨raw, hraw⟩ := addresses_error h3
          exact ⟨raw, by rw [hraw]⟩
        · rcases hbad with ⟨e, he⟩ | ⟨e, he⟩ | ⟨e, he⟩ | ⟨e, he⟩
          · rw [hfrom] at he; cases he
          · rw [h1] at he; cases he
          · rw [h2] at he; cases he
          · rw [h3] at he; cases he

theorem claim_C9_witness :
    ∃ raw, create_mail mdId mgNone fsBody "body.md" "S" ["a@x.co"] ["bad"] [] [] cfgMe =
      (.error (.malformedAddress raw), []) :=
  claim_C9 (List.cons_ne_nil _ _)
    (Or.inr (Or.inr (Or.inl ⟨.malformedAddress "bad",
      show addresses ["bad"] = .error (.malformedAddress "bad") from rfl⟩)))

/-- C10: the sender mailbox is built by formatting the configuration's
name and email as "name <email>" and parsing it with the same
`parse_address` used for recipients (src/main.rs line 100); whenever
that combined string fails to parse, composition fails with the
malformed-address error carrying it — whatever the recipients are. -/
theorem claim_C10 {md : String → String} {mg : String → Option String} {fs : Fs}
    {path subject : String} {to_ cc bcc files : List String} {config : Config}
    {e : MError}
    (hto : to_ ≠ [])
    (hfail : parse_address (config.name ++ " <" ++ config.email ++ ">") = .error e) :
    e = .malformedAddress (config.name ++ " <" ++ config.email ++ ">") ∧
      create_mail md mg fs path subject to_ cc bcc files config = (.error e, []) := by
  refine ⟨parse_address_error hfail, ?_⟩
  obtain ⟨t, ts, rfl⟩ : ∃ t ts, to_ = t :: ts := by
    cases to_ with
    | nil => exact absurd rfl hto
    | cons t ts => exact ⟨t, ts, rfl⟩
  unfold create_mail
  rw [if_neg (by simp), hfail]

theorem claim_C10_witness :
    (MError.malformedAddress "A<b <u@h.co>" =
      .malformedAddress ("A<b" ++ " <" ++ "u@h.co" ++ ">")) ∧
    create_mail mdId mgNone fsBody "body.md" "S" ["a@x.co"] [] [] [] ⟨"A<b", "u@h.co"⟩ =
      (.error (.malformedAddress "A<b <u@h.co>"), []) :=
  @claim_C10 mdId mgNone fsBody "body.md" "S" ["a@x.co"] [] [] [] ⟨"A<b", "u@h.co"⟩
    (.malformedAddress "A<b <u@h.co>") (List.cons_ne_nil _ _)
    (show parse_address "A<b <u@h.co>" =
      .error (.malformedAddress "A<b <u@h.co>") from rfl)

end Sendmail
